import Mathlib

/-!
Verification of the steam-global-launch-options plugin (Millennium plugin for
Steam) against its design specification.

Shallow embedding conventions:
* JavaScript strings are modelled as `List Char`; JS string/array operations
  (`split`, `trim`, `join`, `filter`) are translated to structurally recursive
  functions with the same semantics.
* The event-driven hook code (`injectLaunchHooks` in `frontend/index.tsx`) is
  modelled as pure transition functions over the correlator state
  (`currentLaunchingAppId : Option Nat`), with the calls the handler makes to
  the platform recorded as an explicit effect trace and the outcomes of the
  asynchronous platform calls passed in as parameters.
* Steam app ids are natural numbers; `natChars` models JS
  `Number.prototype.toString` (decimal rendering), used by the exclusion check.
-/

set_option maxRecDepth 4000
set_option maxHeartbeats 1000000

/-- Prepend a character to the first fragment of a fragment list (helper for
the string-split functions; the JS `split` keeps accumulating characters into
the current fragment until a separator is found). -/
def consHead (c : Char) : List (List Char) → List (List Char)
  | [] => [[c]]
  | f :: fs => (c :: f) :: fs

/-- JS `String.prototype.split` with a single-character separator class:
splits at every character satisfying `p`, keeping empty fragments (as JS
does). -/
def splitOnPred (p : Char → Bool) : List Char → List (List Char)
  | [] => [[]]
  | c :: rest => if p c then [] :: splitOnPred p rest else consHead c (splitOnPred p rest)

/-- JS `String.prototype.trim`: drop whitespace from both ends. -/
def trimChars (l : List Char) : List Char :=
  ((l.dropWhile Char.isWhitespace).reverse.dropWhile Char.isWhitespace).reverse

/-- JS `Array.prototype.join(' ')`: concatenate fragments with a single space
between consecutive fragments. -/
def joinSpace : List (List Char) → List Char
  | [] => []
  | [t] => t
  | t :: ts => t ++ ' ' :: joinSpace ts

/-- The reserved placeholder token `%command%` (spec §6: "the literal string
%command%, reserved; not escapable"). -/
def cmdToken : List Char := "%command%".data

/-- JS `options.split('%command%')`, fuel-indexed so that the recursion is
structural (the fuel counts characters still to be scanned; callers pass
`length + 1`, which always suffices).  Scans left to right; at each position,
if the separator starts here, the current fragment is ended and the scan
resumes after the separator (leftmost non-overlapping matches, exactly JS
`String.prototype.split` with a string separator). -/
def splitOnCmdF : Nat → List Char → List (List Char)
  | 0, _ => [[]]
  | _ + 1, [] => [[]]
  | fuel + 1, c :: rest =>
    if cmdToken.isPrefixOf (c :: rest) then
      [] :: splitOnCmdF fuel (rest.drop (cmdToken.length - 1))
    else
      consHead c (splitOnCmdF fuel rest)

/-- JS `options.split('%command%')` (source `parseLaunchOptions`, line
`const parts = options.split('%command%')`). -/
def splitOnCmd (l : List Char) : List (List Char) := splitOnCmdF (l.length + 1) l

/-- Source interface `ParsedLaunchOptions` (frontend/index.tsx lines 83-87). -/
structure ParsedLaunchOptions where
  preCommand : List (List Char)
  postCommand : List (List Char)
  hasCommand : Bool
deriving DecidableEq

/-- The tokenization used throughout `parseLaunchOptions`:
`s.trim().split(/\s+/).filter(p => p.length > 0)`.  Splitting on every single
whitespace character and then filtering empty fragments yields the same list
as splitting on runs of whitespace (`/\s+/`) and filtering. -/
def jsTokens (s : List Char) : List (List Char) :=
  (splitOnPred Char.isWhitespace (trimChars s)).filter (fun t => 0 < t.length)

/-- Source `parseLaunchOptions` (frontend/index.tsx lines 99-134): empty or
whitespace-only input yields the empty structure; otherwise split on the
placeholder and dispatch on the number of fragments. -/
def parseLaunchOptions (options : List Char) : ParsedLaunchOptions :=
  if trimChars options = [] then ⟨[], [], false⟩
  else
    let parts := splitOnCmd options
    if parts.length = 1 then
      ⟨[], jsTokens (parts.headD []), false⟩
    else if parts.length = 2 then
      ⟨jsTokens (parts.headD []), jsTokens (parts.getD 1 []), true⟩
    else
      ⟨jsTokens (parts.headD []), jsTokens (joinSpace (parts.drop 1)), true⟩

/-- `combinedPreCommand` of `mergeLaunchOptions`:
`[...original.preCommand, ...global.preCommand]`. -/
def mergedPre (po pg : ParsedLaunchOptions) : List (List Char) :=
  po.preCommand ++ pg.preCommand

/-- `combinedPostCommand` of `mergeLaunchOptions`:
`[...original.postCommand, ...global.postCommand]`. -/
def mergedPost (po pg : ParsedLaunchOptions) : List (List Char) :=
  po.postCommand ++ pg.postCommand

/-- The string-building part of `mergeLaunchOptions` (frontend/index.tsx lines
154-172), acting on the two parsed structures.  `r1`, `r2` and the final
result correspond to the successive values of the mutable `result` variable;
`result += (result ? ' ' : '') + x` becomes
`r ++ (if r = [] then [] else [' ']) ++ x`. -/
def buildMerged (po pg : ParsedLaunchOptions) : List Char :=
  let r1 : List Char :=
    if 0 < (mergedPre po pg).length then joinSpace (mergedPre po pg) else []
  let r2 : List Char :=
    if po.hasCommand = true ∨ pg.hasCommand = true ∨ 0 < (mergedPre po pg).length then
      r1 ++ (if r1 = [] then [] else [' ']) ++ cmdToken
    else r1
  if 0 < (mergedPost po pg).length then
    r2 ++ (if r2 = [] then [] else [' ']) ++ joinSpace (mergedPost po pg)
  else r2

/-- Source `mergeLaunchOptions` (frontend/index.tsx lines 144-173). -/
def mergeLaunchOptions (originalOptions globalOptions : List Char) : List Char :=
  buildMerged (parseLaunchOptions originalOptions) (parseLaunchOptions globalOptions)

/-- Modelled from the spec's words (§4.2 Option Merger), for the refinement
claim about `mergeLaunchOptions`: the output is a list of segments — the
space-joined `combinedPre` tokens (when non-empty), then the placeholder token
exactly when `original.hasPlaceholder ∨ global.hasPlaceholder ∨ combinedPre`
non-empty, then the space-joined `combinedPost` tokens (when non-empty). -/
def specSegments (po pg : ParsedLaunchOptions) : List (List Char) :=
  (if 0 < (mergedPre po pg).length then [joinSpace (mergedPre po pg)] else []) ++
  (if po.hasCommand = true ∨ pg.hasCommand = true ∨ 0 < (mergedPre po pg).length then
    [cmdToken] else []) ++
  (if 0 < (mergedPost po pg).length then [joinSpace (mergedPost po pg)] else [])

/-- Modelled from the spec's words (§4.2): the merge output is the segments,
each separated by exactly one space and with no leading or trailing space. -/
def specMerge (o g : List Char) : List Char :=
  joinSpace (specSegments (parseLaunchOptions o) (parseLaunchOptions g))

/-- Number of occurrences of the substring `%command%` in a string, counting
every start position (so even overlapping occurrences are counted). -/
def countCmdOcc : List Char → Nat
  | [] => 0
  | c :: rest => (if cmdToken.isPrefixOf (c :: rest) then 1 else 0) + countCmdOcc rest

/-- Action kind checked by the launch-detection handler (`action !== 'LaunchApp'`). -/
def launchAppTag : List Char := "LaunchApp".data

/-- Action tag checked by the process-creation wrapper (`action === 'CreatingProcess'`). -/
def creatingProcessTag : List Char := "CreatingProcess".data

/-- Source interface `PluginConfig` (frontend/index.tsx lines 17-20). -/
structure PluginConfig where
  globalLaunchOptions : List Char
  excludedGameIds : List Char
deriving DecidableEq

/-- JS `config.excludedGameIds.split(',')`. -/
def splitComma (l : List Char) : List (List Char) :=
  splitOnPred (fun c => c == ',') l

/-- The exclusion list computed by the launch-detection handler
(frontend/index.tsx lines 201-203):
`config.excludedGameIds ? config.excludedGameIds.split(',').map(id => id.trim()) : []`
(the empty string is falsy in JS). -/
def excludedAppIds (cfg : PluginConfig) : List (List Char) :=
  if cfg.excludedGameIds = [] then []
  else (splitComma cfg.excludedGameIds).map trimChars

/-- Decimal digit character (for rendering app ids). -/
def digitChar (d : Nat) : Char := Char.ofNat (48 + d)

/-- Fuel-indexed decimal rendering of a natural number. -/
def natCharsF : Nat → Nat → List Char → List Char
  | 0, _, acc => acc
  | fuel + 1, n, acc =>
    if n < 10 then digitChar n :: acc
    else natCharsF fuel (n / 10) (digitChar (n % 10) :: acc)

/-- JS `appId.toString()` for a natural app id (decimal rendering). -/
def natChars (n : Nat) : List Char := natCharsF (n + 1) n []

/-- Launch-detection handler: the callback registered with
`RegisterForGameActionUserRequest` (frontend/index.tsx lines 192-212), as a
transition on the correlator state `currentLaunchingAppId`.  The callback's
`_gameActionId`, `_requestedAction` and `_appId2` parameters are unused by the
source and omitted here.  A non-`LaunchApp` action returns early leaving the
state unchanged; an excluded app clears the state; otherwise the state is set
to the launching app. -/
def onGameActionUserRequest (cfg : PluginConfig) (currentLaunchingAppId : Option Nat)
    (appId : Nat) (action : List Char) : Option Nat :=
  if action ≠ launchAppTag then currentLaunchingAppId
  else if (excludedAppIds cfg).contains (natChars appId) then none
  else some appId

/-- Outcome of the `getCurrentLaunchOptions` promise as observed by the
`ContinueGameAction` wrapper: it resolves with the original options string, or
rejects (with the timeout error, or with an error thrown by the registration
or callback). -/
inductive FetchOutcome
  | resolved (launchOptions : List Char)
  | rejectedTimeout
  | rejectedError
deriving DecidableEq

/-- The platform calls made by the `ContinueGameAction` wrapper, in order:
fetching original options (`getCurrentLaunchOptions`), applying options
(`SetAppLaunchOptions`), arming the restoration `setTimeout`, and delegating
to the captured original `ContinueGameAction`. -/
inductive Effect
  | fetchOriginal (appId : Nat)
  | setOptions (appId : Nat) (options : List Char)
  | armRestore (appId : Nat) (options : List Char) (delayMs : Nat)
  | callOriginal (gameActionId : Nat) (action : List Char)
deriving DecidableEq

/-- Result of one `ContinueGameAction` invocation: the correlator state after
the handler and the ordered trace of platform calls it made. -/
structure ContinueResult where
  state : Option Nat
  effects : List Effect
deriving DecidableEq

/-- Restoration delay of the frontend source: `setTimeout(..., 20000)`. -/
def RESTORE_DELAY_MS : Nat := 20000

/-- The wrapped `ContinueGameAction` (frontend/index.tsx lines 222-271), as a
pure function of the correlator state, the incoming event, and the outcomes of
the two fallible platform interactions (the original-options fetch and the
`SetAppLaunchOptions` call, which `setterThrows` says would throw).  When the
setter throws, the `catch` swallows the error before the restoration timer is
armed, so no `armRestore` effect is produced; the cleanup that clears
`currentLaunchingAppId` runs on every path through the `CreatingProcess`
branch; and the captured original handler is always invoked with the same
arguments.  `SetAppLaunchOptions` receives `parseInt(currentLaunchingAppId)`,
which is the app id itself for the decimal ids delivered by the platform. -/
def continueGameAction (cfg : PluginConfig) (currentLaunchingAppId : Option Nat)
    (gameActionId : Nat) (action : List Char) (fetch : FetchOutcome)
    (setterThrows : Bool) : ContinueResult :=
  match currentLaunchingAppId with
  | some appId =>
    if action = creatingProcessTag then
      if cfg.globalLaunchOptions ≠ [] then
        match fetch with
        | .resolved originalLaunchOptions =>
          ⟨none,
            Effect.fetchOriginal appId ::
            Effect.setOptions appId
              (mergeLaunchOptions originalLaunchOptions cfg.globalLaunchOptions) ::
            ((if setterThrows then []
              else [Effect.armRestore appId originalLaunchOptions RESTORE_DELAY_MS]) ++
             [Effect.callOriginal gameActionId action])⟩
        | .rejectedTimeout =>
          ⟨none, [Effect.fetchOriginal appId, Effect.callOriginal gameActionId action]⟩
        | .rejectedError =>
          ⟨none, [Effect.fetchOriginal appId, Effect.callOriginal gameActionId action]⟩
      else ⟨none, [Effect.callOriginal gameActionId action]⟩
    else ⟨some appId, [Effect.callOriginal gameActionId action]⟩
  | none => ⟨none, [Effect.callOriginal gameActionId action]⟩

/-- Cache TTL of the backend configuration source (src/unnamed/part_000 line 9):
`const CONFIG_CACHE_TTL = 1000`. -/
def CONFIG_CACHE_TTL : Nat := 1000

/-- Module-level cache state of the backend configuration source
(src/unnamed/part_000 lines 7-8): `configCache` and `lastConfigFetch`. -/
structure ConfigCacheState where
  configCache : Option PluginConfig
  lastConfigFetch : Nat
deriving DecidableEq

/-- Outcome of `Millennium.callServerMethod("Backend.get_hook_config")`
followed by `JSON.parse`: either a parsed configuration, or a failure (the
call threw or the response was unparseable). -/
inductive BackendResult
  | ok (cfg : PluginConfig)
  | failure
deriving DecidableEq

/-- Result of one `fetchCurrentConfig` call: the returned configuration, the
cache state afterwards, and whether the backend was called. -/
structure FetchConfigResult where
  config : PluginConfig
  state : ConfigCacheState
  backendCalled : Bool
deriving DecidableEq

/-- The safe default used on fetch failure (src/unnamed/part_000 lines 50-53). -/
def defaultConfig : PluginConfig := ⟨[], []⟩

/-- The non-cached path of `fetchCurrentConfig`: call the backend, parse; on
success cache and return the parsed config, on failure cache and return the
default. -/
def fetchFreshConfig (now : Nat) (backend : BackendResult) : FetchConfigResult :=
  match backend with
  | .ok cfg => ⟨cfg, ⟨some cfg, now⟩, true⟩
  | .failure => ⟨defaultConfig, ⟨some defaultConfig, now⟩, true⟩

/-- Source `fetchCurrentConfig` (src/unnamed/part_000 lines 28-59):
`if (configCache && (now - lastConfigFetch) < CONFIG_CACHE_TTL) return configCache`
then the backend fetch with fallback.  `Date.now()` is passed in as `now`;
truncated `Nat` subtraction agrees with JS number subtraction on the
`< CONFIG_CACHE_TTL` test (a negative JS difference and a truncated-to-zero
`Nat` difference are both below the TTL). -/
def fetchCurrentConfig (st : ConfigCacheState) (now : Nat) (backend : BackendResult) :
    FetchConfigResult :=
  match st.configCache with
  | some cached =>
    if now - st.lastConfigFetch < CONFIG_CACHE_TTL then ⟨cached, st, false⟩
    else fetchFreshConfig now backend
  | none => fetchFreshConfig now backend

/-- Timeout bound of `getCurrentLaunchOptions` (frontend/index.tsx line 75):
`setTimeout(..., 5000)`. -/
def TIMEOUT_MS : Nat := 5000

/-- The object delivered to the `RegisterForAppDetails` callback; the source
reads `appDetails.strLaunchOptions || ''`, so an absent field becomes the
empty string. -/
structure AppDetails where
  strLaunchOptions : Option (List Char)

/-- Observable operations of one `getCurrentLaunchOptions` run:
de-registering the callback, resolving the promise, rejecting with the
timeout error. -/
inductive FetchOp
  | unregisterCb
  | resolveOptions (s : List Char)
  | rejectTimeout
deriving DecidableEq

/-- Whether an operation settles the promise. -/
def isSettle : FetchOp → Bool
  | .resolveOptions _ => true
  | .rejectTimeout => true
  | .unregisterCb => false

/-- The time-ordered operation trace of `getCurrentLaunchOptions`
(frontend/index.tsx lines 54-81) given the environment's behaviour: `cb` is
the time at which the platform fires the app-details callback together with
the delivered details, or `none` if it never fires.  If the callback fires
before the 5-second timer, the callback body runs first (unregister, then
resolve) and the timer still fires later (unregister again, then a reject
that a settled promise ignores).  Otherwise the timer runs first (unregister,
then reject) and the de-registered callback never fires. -/
def getCurrentLaunchOptionsTrace (cb : Option (Nat × AppDetails)) : List FetchOp :=
  match cb with
  | some (t, d) =>
    if t < TIMEOUT_MS then
      [FetchOp.unregisterCb, FetchOp.resolveOptions (d.strLaunchOptions.getD []),
       FetchOp.unregisterCb, FetchOp.rejectTimeout]
    else [FetchOp.unregisterCb, FetchOp.rejectTimeout]
  | none => [FetchOp.unregisterCb, FetchOp.rejectTimeout]

/-- The settled outcome of the promise: a JS promise takes the first settle
operation performed on it and ignores all later ones, so the two completions
are mutually exclusive by construction. -/
def promiseOutcome (trace : List FetchOp) : Option FetchOp :=
  trace.find? isSettle

/-- One call to the platform options setter, as made by the restoration timer. -/
structure SetterCall where
  appId : Nat
  options : List Char
deriving DecidableEq

/-- Outcome of the restoration timer body: it completed, or the setter threw
and the `catch` logged the error, or an exception escaped the timer action
(which the source's `try`/`catch` makes impossible). -/
inductive TimerOutcome
  | completed
  | caughtError
  | raised
deriving DecidableEq

/-- The restoration `setTimeout` body (frontend/index.tsx lines 247-256),
executed when the armed delay elapses: it calls
`SetAppLaunchOptions(parseInt(appIdToRestore), optionsToRestore)` once inside
`try`; if the setter throws, the `catch` reports the error and the exception
does not escape. -/
def restorationTimerFire (appIdToRestore : Nat) (optionsToRestore : List Char)
    (setterThrows : Bool) : List SetterCall × TimerOutcome :=
  if setterThrows then ([⟨appIdToRestore, optionsToRestore⟩], TimerOutcome.caughtError)
  else ([⟨appIdToRestore, optionsToRestore⟩], TimerOutcome.completed)


/-! Basic facts about the string-splitting helpers. -/

lemma consHead_ne_nil (c : Char) (ts : List (List Char)) : consHead c ts ≠ [] := by
  cases ts <;> simp [consHead]

lemma splitOnPred_ne_nil (p : Char → Bool) (l : List Char) : splitOnPred p l ≠ [] := by
  cases l with
  | nil => simp [splitOnPred]
  | cons c rest =>
    by_cases h : p c <;> simp [splitOnPred, h, consHead_ne_nil]

lemma splitOnPred_head_le (p : Char → Bool) (l : List Char) :
    (splitOnPred p l).headD [] <+: l := by
  induction l with
  | nil => simp [splitOnPred]
  | cons c rest ih =>
    by_cases h : p c
    · simp [splitOnPred, h]
    · obtain ⟨f, fs, hf⟩ := List.exists_cons_of_ne_nil (splitOnPred_ne_nil p rest)
      rw [hf] at ih
      simp only [List.headD_cons] at ih
      simp only [splitOnPred, if_neg h, hf, consHead, List.headD_cons]
      exact List.cons_prefix_cons.mpr ⟨rfl, ih⟩

lemma splitOnPred_mem_sub (p : Char → Bool) {l f : List Char}
    (hm : f ∈ splitOnPred p l) : f <:+: l := by
  induction l with
  | nil =>
    simp [splitOnPred] at hm
    subst hm
    exact List.infix_rfl
  | cons c rest ih =>
    by_cases h : p c
    · rw [splitOnPred, if_pos h] at hm
      rcases List.mem_cons.mp hm with rfl | hm'
      · exact List.nil_infix
      · exact List.infix_cons_iff.mpr (Or.inr (ih hm'))
    · obtain ⟨f₀, fs, hf⟩ := List.exists_cons_of_ne_nil (splitOnPred_ne_nil p rest)
      rw [splitOnPred, if_neg h, hf] at hm
      simp only [consHead] at hm
      rcases List.mem_cons.mp hm with rfl | hm'
      · have h0 : f₀ <+: rest := by
          have hh := splitOnPred_head_le p rest
          rw [hf] at hh
          simpa using hh
        exact (List.cons_prefix_cons.mpr ⟨rfl, h0⟩).isInfix
      · exact List.infix_cons_iff.mpr (Or.inr (ih (by rw [hf]; exact List.mem_cons_of_mem _ hm')))

lemma trimChars_sub (l : List Char) : trimChars l <:+: l := by
  unfold trimChars
  have h1 : l.dropWhile Char.isWhitespace <:+ l := List.dropWhile_suffix _
  have h2 : (l.dropWhile Char.isWhitespace).reverse.dropWhile Char.isWhitespace <:+
      (l.dropWhile Char.isWhitespace).reverse := List.dropWhile_suffix _
  have h3 : ((l.dropWhile Char.isWhitespace).reverse.dropWhile Char.isWhitespace).reverse <+:
      l.dropWhile Char.isWhitespace := by
    rw [← List.reverse_suffix, List.reverse_reverse]
    exact h2
  exact h3.isInfix.trans h1.isInfix

/-! Facts about the placeholder token and occurrence counting. -/

lemma cmdToken_ne_nil : cmdToken ≠ [] := by decide

lemma space_not_mem_cmdToken : ' ' ∉ cmdToken := by decide

lemma countCmdOcc_cmdToken : countCmdOcc cmdToken = 1 := by decide

lemma cmd_head_eq {l : List Char} (h : cmdToken <+: l) : l.headD ' ' = '%' := by
  obtain ⟨t, rfl⟩ := h
  rfl

lemma splitOnCmdF_ne_nil : ∀ (fuel : Nat) (l : List Char), splitOnCmdF fuel l ≠ []
  | 0, _ => by simp [splitOnCmdF]
  | _ + 1, [] => by simp [splitOnCmdF]
  | _ + 1, c :: rest => by
    by_cases h : cmdToken.isPrefixOf (c :: rest) <;>
      simp [splitOnCmdF, h, consHead_ne_nil]

lemma splitOnCmdF_head_le : ∀ (fuel : Nat) (l : List Char),
    (splitOnCmdF fuel l).headD [] <+: l
  | 0, l => by simp [splitOnCmdF]
  | _ + 1, [] => by simp [splitOnCmdF]
  | fuel + 1, c :: rest => by
    by_cases h : cmdToken.isPrefixOf (c :: rest)
    · simp [splitOnCmdF, h]
    · obtain ⟨f₀, fs, hf⟩ := List.exists_cons_of_ne_nil (splitOnCmdF_ne_nil fuel rest)
      have ih := splitOnCmdF_head_le fuel rest
      rw [hf] at ih
      simp only [List.headD_cons] at ih
      simp only [splitOnCmdF, if_neg h, hf, consHead, List.headD_cons]
      exact List.cons_prefix_cons.mpr ⟨rfl, ih⟩

lemma splitOnCmdF_cmd_free : ∀ (fuel : Nat) (l : List Char),
    ∀ f ∈ splitOnCmdF fuel l, ¬ cmdToken <:+: f
  | 0, l => by
    intro f hf hinf
    simp [splitOnCmdF] at hf
    subst hf
    exact cmdToken_ne_nil (List.infix_nil.mp hinf)
  | _ + 1, [] => by
    intro f hf hinf
    simp [splitOnCmdF] at hf
    subst hf
    exact cmdToken_ne_nil (List.infix_nil.mp hinf)
  | fuel + 1, c :: rest => by
    intro f hf hinf
    by_cases h : cmdToken.isPrefixOf (c :: rest)
    · rw [splitOnCmdF, if_pos h] at hf
      rcases List.mem_cons.mp hf with rfl | hf'
      · exact cmdToken_ne_nil (List.infix_nil.mp hinf)
      · exact splitOnCmdF_cmd_free fuel _ f hf' hinf
    · obtain ⟨f₀, fs, hfr⟩ := List.exists_cons_of_ne_nil (splitOnCmdF_ne_nil fuel rest)
      rw [splitOnCmdF, if_neg h, hfr] at hf
      simp only [consHead] at hf
      rcases List.mem_cons.mp hf with rfl | hf'
      · rcases List.infix_cons_iff.mp hinf with hp | hi
        · have h0 : f₀ <+: rest := by
            have hh := splitOnCmdF_head_le fuel rest
            rw [hfr] at hh
            simpa using hh
          have hcr : cmdToken <+: c :: rest :=
            hp.trans (List.cons_prefix_cons.mpr ⟨rfl, h0⟩)
          exact h (by simpa using hcr)
        · exact splitOnCmdF_cmd_free fuel rest f₀
            (by rw [hfr]; exact List.mem_cons_self _ _) hi
      · exact splitOnCmdF_cmd_free fuel rest f
          (by rw [hfr]; exact List.mem_cons_of_mem _ hf') hinf

lemma splitOnCmdF_len_one : ∀ (fuel : Nat) (l : List Char), l.length < fuel →
    (splitOnCmdF fuel l).length = 1 → splitOnCmdF fuel l = [l]
  | 0, l => by
    intro h
    exact absurd h (Nat.not_lt_zero _)
  | _ + 1, [] => by
    intro _ _
    simp [splitOnCmdF]
  | fuel + 1, c :: rest => by
    intro hfuel hlen
    by_cases h : cmdToken.isPrefixOf (c :: rest)
    · exfalso
      have hne := splitOnCmdF_ne_nil fuel (rest.drop (cmdToken.length - 1))
      rw [splitOnCmdF, if_pos h] at hlen
      simp only [List.length_cons] at hlen
      have hpos : 0 < (splitOnCmdF fuel (rest.drop (cmdToken.length - 1))).length :=
        List.length_pos.mpr hne
      omega
    · obtain ⟨f₀, fs, hfr⟩ := List.exists_cons_of_ne_nil (splitOnCmdF_ne_nil fuel rest)
      rw [splitOnCmdF, if_neg h, hfr] at hlen ⊢
      simp only [consHead, List.length_cons] at hlen
      have hfs : fs = [] := List.eq_nil_of_length_eq_zero (by omega)
      subst hfs
      have hrest : rest.length < fuel := by
        simp only [List.length_cons] at hfuel
        omega
      have hr : splitOnCmdF fuel rest = [rest] :=
        splitOnCmdF_len_one fuel rest hrest (by rw [hfr]; rfl)
      rw [hfr] at hr
      injection hr with h1 _
      subst h1
      rfl

lemma splitOnCmdF_all_ws : ∀ (fuel : Nat) (l : List Char), l.length < fuel →
    (∀ c ∈ l, c.isWhitespace) → splitOnCmdF fuel l = [l]
  | 0, l => fun h _ => absurd h (Nat.not_lt_zero _)
  | _ + 1, [] => fun _ _ => by simp [splitOnCmdF]
  | fuel + 1, c :: rest => fun hfuel hws => by
    have hc : ¬ cmdToken.isPrefixOf (c :: rest) := by
      intro hp
      have hh : (c :: rest).headD ' ' = '%' := cmd_head_eq (by simpa using hp)
      simp only [List.headD_cons] at hh
      subst hh
      exact absurd (hws '%' (List.mem_cons_self _ _)) (by decide)
    have ih := splitOnCmdF_all_ws fuel rest
      (by simp only [List.length_cons] at hfuel; omega)
      (fun x hx => hws x (List.mem_cons_of_mem _ hx))
    simp [splitOnCmdF, hc, ih, consHead]

lemma splitOnCmd_ne_nil (l : List Char) : splitOnCmd l ≠ [] :=
  splitOnCmdF_ne_nil _ _

lemma splitOnCmd_head_le (l : List Char) : (splitOnCmd l).headD [] <+: l :=
  splitOnCmdF_head_le _ _

lemma splitOnCmd_cmd_free {l : List Char} : ∀ f ∈ splitOnCmd l, ¬ cmdToken <:+: f :=
  splitOnCmdF_cmd_free _ _

lemma splitOnCmd_len_one {l : List Char} (h : (splitOnCmd l).length = 1) :
    splitOnCmd l = [l] :=
  splitOnCmdF_len_one _ _ (Nat.lt_succ_self _) h

lemma splitOnCmd_all_ws {l : List Char} (h : ∀ c ∈ l, c.isWhitespace) :
    splitOnCmd l = [l] :=
  splitOnCmdF_all_ws _ _ (Nat.lt_succ_self _) h

lemma all_ws_of_trim_nil {l : List Char} (h : trimChars l = []) :
    ∀ c ∈ l, c.isWhitespace := by
  unfold trimChars at h
  rw [List.reverse_eq_nil_iff, List.dropWhile_eq_nil_iff] at h
  intro c hc
  rw [← List.takeWhile_append_dropWhile (p := Char.isWhitespace) (l := l)] at hc
  rcases List.mem_append.mp hc with h1 | h2
  · exact List.mem_takeWhile_imp h1
  · exact h c (List.mem_reverse.mpr h2)

lemma jsTokens_of_trim_nil {s : List Char} (h : trimChars s = []) : jsTokens s = [] := by
  unfold jsTokens
  rw [h]
  rfl

lemma countCmdOcc_cons (c : Char) (rest : List Char) :
    countCmdOcc (c :: rest) =
      (if cmdToken.isPrefixOf (c :: rest) then 1 else 0) + countCmdOcc rest := rfl

lemma cmd_pre_of_append_space {x y : List Char} (h : cmdToken <+: x ++ ' ' :: y) :
    cmdToken <+: x := by
  rcases List.prefix_or_prefix_of_prefix h (List.prefix_append x (' ' :: y)) with h1 | h2
  · exact h1
  · obtain ⟨t, ht⟩ := h2
    cases t with
    | nil =>
      rw [List.append_nil] at ht
      rw [ht]
    | cons a t' =>
      exfalso
      obtain ⟨u, hu⟩ := h
      rw [← ht, List.append_assoc] at hu
      have h3 : a :: (t' ++ u) = ' ' :: y := List.append_cancel_left hu
      injection h3 with ha _
      apply space_not_mem_cmdToken
      rw [← ht, ha]
      exact List.mem_append_right x (List.mem_cons_self _ _)

lemma countCmdOcc_append_space : ∀ (x y : List Char),
    countCmdOcc (x ++ ' ' :: y) = countCmdOcc x + countCmdOcc y
  | [], y => by
    have h : ¬ cmdToken.isPrefixOf (' ' :: y) := by
      intro hp
      have hh := cmd_head_eq (l := ' ' :: y) (by simpa using hp)
      simp at hh
    simp [countCmdOcc, h]
  | c :: x, y => by
    have ih := countCmdOcc_append_space x y
    show (if cmdToken.isPrefixOf (c :: (x ++ ' ' :: y)) then 1 else 0) + countCmdOcc (x ++ ' ' :: y)
        = ((if cmdToken.isPrefixOf (c :: x) then 1 else 0) + countCmdOcc x) + countCmdOcc y
    by_cases hb : cmdToken <+: c :: x
    · have h1 : cmdToken <+: c :: (x ++ ' ' :: y) := by
        have hh := hb.trans (List.prefix_append (c :: x) (' ' :: y))
        simpa using hh
      rw [if_pos (by simpa using h1), if_pos (by simpa using hb), ih, Nat.add_assoc]
    · have h1 : ¬ cmdToken <+: c :: (x ++ ' ' :: y) := fun hh =>
        hb (cmd_pre_of_append_space (x := c :: x) (by simpa using hh))
      rw [if_neg (by simpa using h1), if_neg (by simpa using hb), ih, Nat.add_assoc]

lemma countCmdOcc_eq_zero_iff : ∀ (l : List Char), countCmdOcc l = 0 ↔ ¬ cmdToken <:+: l
  | [] => by
    simp only [countCmdOcc, List.infix_nil]
    simpa using cmdToken_ne_nil
  | c :: rest => by
    have ih := countCmdOcc_eq_zero_iff rest
    rw [countCmdOcc_cons]
    constructor
    · intro h hinf
      have h1 : ¬ cmdToken.isPrefixOf (c :: rest) := by
        intro hp
        rw [if_pos hp] at h
        omega
      have h2 : countCmdOcc rest = 0 := by
        rw [if_neg h1] at h
        omega
      rcases List.infix_cons_iff.mp hinf with hp | hi
      · exact h1 (by simpa using hp)
      · exact (ih.mp h2) hi
    · intro hn
      have h1 : ¬ cmdToken <+: c :: rest := fun hp => hn (List.infix_cons_iff.mpr (Or.inl hp))
      have h2 : ¬ cmdToken <:+: rest := fun hi => hn (List.infix_cons_iff.mpr (Or.inr hi))
      rw [if_neg (by simpa using h1), ih.mpr h2]

lemma joinSpace_nil : joinSpace [] = [] := rfl

lemma joinSpace_single (t : List Char) : joinSpace [t] = t := rfl

lemma joinSpace_cons2 (a b : List Char) (ts : List (List Char)) :
    joinSpace (a :: b :: ts) = a ++ ' ' :: joinSpace (b :: ts) := rfl

lemma joinSpace_ne_nil : ∀ {ts : List (List Char)}, ts ≠ [] → (∀ t ∈ ts, t ≠ []) →
    joinSpace ts ≠ []
  | [], h, _ => absurd rfl h
  | [t], _, h2 => h2 t (List.mem_cons_self _ _)
  | _ :: _ :: _, _, _ => by
    rw [joinSpace_cons2]
    intro hcon
    exact List.cons_ne_nil _ _ (List.append_eq_nil.mp hcon).2

lemma countCmdOcc_joinSpace_zero : ∀ {ts : List (List Char)},
    (∀ t ∈ ts, countCmdOcc t = 0) → countCmdOcc (joinSpace ts) = 0
  | [], _ => rfl
  | [t], h => h t (List.mem_cons_self _ _)
  | a :: b :: ts, h => by
    rw [joinSpace_cons2, countCmdOcc_append_space, h a (List.mem_cons_self _ _),
      countCmdOcc_joinSpace_zero (fun t ht => h t (List.mem_cons_of_mem _ ht))]

/-! Characterization of `parseLaunchOptions` by the number of placeholder
fragments (the fragment count of `splitOnCmd` is one more than the number of
leftmost non-overlapping occurrences of the placeholder). -/

lemma parse_eq_of_trim_nil {s : List Char} (h : trimChars s = []) :
    parseLaunchOptions s = ⟨[], [], false⟩ := by
  unfold parseLaunchOptions
  rw [if_pos h]

lemma trim_ne_of_many {s : List Char} (h : 1 < (splitOnCmd s).length) :
    trimChars s ≠ [] := by
  intro h0
  rw [splitOnCmd_all_ws (all_ws_of_trim_nil h0)] at h
  simp at h

lemma parse_eq_one {s : List Char} (h : (splitOnCmd s).length = 1) :
    parseLaunchOptions s = ⟨[], jsTokens s, false⟩ := by
  by_cases h0 : trimChars s = []
  · rw [parse_eq_of_trim_nil h0, jsTokens_of_trim_nil h0]
  · unfold parseLaunchOptions
    rw [if_neg h0]
    simp [splitOnCmd_len_one h]

lemma parse_eq_two {s : List Char} (h : (splitOnCmd s).length = 2) :
    parseLaunchOptions s =
      ⟨jsTokens ((splitOnCmd s).headD []), jsTokens ((splitOnCmd s).getD 1 []), true⟩ := by
  have h0 : trimChars s ≠ [] := trim_ne_of_many (by omega)
  unfold parseLaunchOptions
  rw [if_neg h0]
  simp [h]

lemma parse_eq_many {s : List Char} (h : 2 < (splitOnCmd s).length) :
    parseLaunchOptions s =
      ⟨jsTokens ((splitOnCmd s).headD []),
       jsTokens (joinSpace ((splitOnCmd s).drop 1)), true⟩ := by
  have h0 : trimChars s ≠ [] := trim_ne_of_many (by omega)
  unfold parseLaunchOptions
  rw [if_neg h0]
  simp only [if_neg (by omega : ¬ (splitOnCmd s).length = 1),
    if_neg (by omega : ¬ (splitOnCmd s).length = 2)]

lemma splitOnCmd_count_zero {l : List Char} : ∀ f ∈ splitOnCmd l, countCmdOcc f = 0 :=
  fun f hf => (countCmdOcc_eq_zero_iff f).mpr (splitOnCmd_cmd_free f hf)

lemma token_facts {u t : List Char} (hu : countCmdOcc u = 0) (ht : t ∈ jsTokens u) :
    t ≠ [] ∧ countCmdOcc t = 0 := by
  unfold jsTokens at ht
  rw [List.mem_filter] at ht
  obtain ⟨hmem, hlen⟩ := ht
  have hlen' : 0 < t.length := by simpa using hlen
  refine ⟨List.ne_nil_of_length_pos hlen', ?_⟩
  have h1 : t <:+: trimChars u := splitOnPred_mem_sub _ hmem
  have h2 : t <:+: u := h1.trans (trimChars_sub u)
  rw [countCmdOcc_eq_zero_iff]
  intro hc
  exact (countCmdOcc_eq_zero_iff u).mp hu (hc.trans h2)

lemma parse_token_facts (s : List Char) :
    ∀ t, (t ∈ (parseLaunchOptions s).preCommand ∨ t ∈ (parseLaunchOptions s).postCommand) →
      t ≠ [] ∧ countCmdOcc t = 0 := by
  intro t ht
  have hne := splitOnCmd_ne_nil s
  have hhead_mem : (splitOnCmd s).headD [] ∈ splitOnCmd s := by
    obtain ⟨f₀, fs, hsp⟩ := List.exists_cons_of_ne_nil hne
    rw [hsp]
    exact List.mem_cons_self _ _
  have hhead0 : countCmdOcc ((splitOnCmd s).headD []) = 0 :=
    splitOnCmd_count_zero _ hhead_mem
  have hlen : 0 < (splitOnCmd s).length := List.length_pos.mpr hne
  rcases Nat.lt_trichotomy (splitOnCmd s).length 2 with h1 | h2 | h3
  · have h1' : (splitOnCmd s).length = 1 := by omega
    rw [parse_eq_one h1'] at ht
    have hs0 : countCmdOcc s = 0 :=
      splitOnCmd_count_zero s (by rw [splitOnCmd_len_one h1']; exact List.mem_cons_self _ _)
    rcases ht with ht | ht
    · exact absurd ht (List.not_mem_nil t)
    · exact token_facts hs0 ht
  · obtain ⟨a, b, hab⟩ := List.length_eq_two.mp h2
    have ha : countCmdOcc a = 0 := splitOnCmd_count_zero a (by rw [hab]; simp)
    have hb : countCmdOcc b = 0 := splitOnCmd_count_zero b (by rw [hab]; simp)
    rw [parse_eq_two h2, hab] at ht
    rcases ht with ht | ht
    · exact token_facts ha (by simpa using ht)
    · exact token_facts hb (by simpa using ht)
  · rw [parse_eq_many h3] at ht
    rcases ht with ht | ht
    · exact token_facts hhead0 ht
    · have hj : countCmdOcc (joinSpace ((splitOnCmd s).drop 1)) = 0 :=
        countCmdOcc_joinSpace_zero (fun f hf =>
          splitOnCmd_count_zero f (List.drop_subset 1 (splitOnCmd s) hf))
      exact token_facts hj ht

/-! Equality of the imperative merge construction with the segment-based
description from the spec. -/

lemma buildMerged_eq (po pg : ParsedLaunchOptions)
    (hpre : ∀ t ∈ mergedPre po pg, t ≠ []) :
    buildMerged po pg = joinSpace (specSegments po pg) := by
  by_cases h1 : 0 < (mergedPre po pg).length
  · have hcond : po.hasCommand = true ∨ pg.hasCommand = true ∨ 0 < (mergedPre po pg).length :=
      Or.inr (Or.inr h1)
    have hjp : joinSpace (mergedPre po pg) ≠ [] :=
      joinSpace_ne_nil (List.ne_nil_of_length_pos h1) hpre
    have h4 : joinSpace (mergedPre po pg) ++ [' '] ++ cmdToken ≠ [] := by
      simp [List.append_eq_nil]
    by_cases h3 : 0 < (mergedPost po pg).length <;>
      simp [buildMerged, specSegments, h1, hcond, h3, hjp, h4,
        joinSpace_cons2, joinSpace_single, List.append_assoc]
  · by_cases hor : po.hasCommand = true ∨ pg.hasCommand = true
    · by_cases h3 : 0 < (mergedPost po pg).length <;>
        simp [buildMerged, specSegments, h1, hor, h3, cmdToken_ne_nil,
          joinSpace_cons2, joinSpace_single]
    · by_cases h3 : 0 < (mergedPost po pg).length <;>
        simp [buildMerged, specSegments, h1, hor, h3, joinSpace_single, joinSpace_nil]

lemma mergeLaunchOptions_eq_specMerge (o g : List Char) :
    mergeLaunchOptions o g = specMerge o g := by
  unfold mergeLaunchOptions specMerge
  apply buildMerged_eq
  intro t ht
  rcases List.mem_append.mp (by simpa [mergedPre] using ht) with h | h
  · exact (parse_token_facts o t (Or.inl h)).1
  · exact (parse_token_facts g t (Or.inl h)).1

/-! Claim theorems. -/

/-- C2: for every pair of input strings, `mergeLaunchOptions` returns exactly
the spec-described concatenation (`specMerge`): the space-joined
`combinedPre = original.preCommand ++ global.preCommand`, then the placeholder
token exactly when `original.hasCommand ∨ global.hasCommand ∨ combinedPre`
non-empty, then the space-joined `combinedPost`, each segment separated by one
space with no leading or trailing space; in particular `merge("","")` is the
empty string and the spec's worked example holds. -/
theorem mergeLaunchOptions_matches_spec :
    (∀ o g : List Char, mergeLaunchOptions o g = specMerge o g) ∧
    mergeLaunchOptions [] [] = [] ∧
    mergeLaunchOptions "gamemoderun %command% -windowed".data "MANGOHUD=1 %command%".data
      = "gamemoderun MANGOHUD=1 %command% -windowed".data :=
  ⟨mergeLaunchOptions_eq_specMerge, by decide, by decide⟩

/-- C3: `parseLaunchOptions` returns `{[], [], false}` on empty or
whitespace-only input; with zero placeholder occurrences (one fragment) the
whole input is whitespace-tokenized into `postCommand` with
`hasCommand = false`; with exactly one occurrence (two fragments) fragment 0
is tokenized into `preCommand` and fragment 1 into `postCommand` with
`hasCommand = true`; with more than one occurrence fragment 0 goes to
`preCommand` and the remaining fragments are rejoined by a single space before
tokenizing into `postCommand`; and `parse("%command% %command% X")` yields
`preCommand = [], postCommand = ["X"], hasCommand = true`.  (The fragment
count of `splitOnCmd` is the number of leftmost non-overlapping placeholder
occurrences plus one.) -/
theorem parseLaunchOptions_case_analysis :
    (∀ s : List Char,
      (trimChars s = [] → parseLaunchOptions s = ⟨[], [], false⟩) ∧
      ((splitOnCmd s).length = 1 → parseLaunchOptions s = ⟨[], jsTokens s, false⟩) ∧
      ((splitOnCmd s).length = 2 → parseLaunchOptions s =
        ⟨jsTokens ((splitOnCmd s).headD []), jsTokens ((splitOnCmd s).getD 1 []), true⟩) ∧
      (2 < (splitOnCmd s).length → parseLaunchOptions s =
        ⟨jsTokens ((splitOnCmd s).headD []),
         jsTokens (joinSpace ((splitOnCmd s).drop 1)), true⟩)) ∧
    parseLaunchOptions "%command% %command% X".data = ⟨[], [['X']], true⟩ :=
  ⟨fun _ => ⟨parse_eq_of_trim_nil, parse_eq_one, parse_eq_two, parse_eq_many⟩, by decide⟩

/-- Witness for C3: the one-placeholder case evaluated at the spec's example
input "A B %command% C". -/
theorem parseLaunchOptions_case_analysis_witness :
    (splitOnCmd "A B %command% C".data).length = 2 ∧
    parseLaunchOptions "A B %command% C".data =
      ⟨jsTokens ((splitOnCmd "A B %command% C".data).headD []),
       jsTokens ((splitOnCmd "A B %command% C".data).getD 1 []), true⟩ :=
  ⟨by decide, (parseLaunchOptions_case_analysis.1 _).2.2.1 (by decide)⟩

/-- C10: for every pair of input strings — even inputs containing the
placeholder repeatedly or embedded without surrounding whitespace — the string
returned by `mergeLaunchOptions` contains the substring `%command%` at most
once (counting every start position). -/
theorem merge_cmd_at_most_once : ∀ o g : List Char,
    countCmdOcc (mergeLaunchOptions o g) ≤ 1 := by
  intro o g
  rw [mergeLaunchOptions_eq_specMerge]
  unfold specMerge
  set po := parseLaunchOptions o with hpo
  set pg := parseLaunchOptions g with hpg
  have hpre0 : countCmdOcc (joinSpace (mergedPre po pg)) = 0 :=
    countCmdOcc_joinSpace_zero (fun t ht => by
      rcases List.mem_append.mp (by simpa [mergedPre] using ht) with h | h
      · exact (parse_token_facts o t (Or.inl (by rw [← hpo]; exact h))).2
      · exact (parse_token_facts g t (Or.inl (by rw [← hpg]; exact h))).2)
  have hpost0 : countCmdOcc (joinSpace (mergedPost po pg)) = 0 :=
    countCmdOcc_joinSpace_zero (fun t ht => by
      rcases List.mem_append.mp (by simpa [mergedPost] using ht) with h | h
      · exact (parse_token_facts o t (Or.inr (by rw [← hpo]; exact h))).2
      · exact (parse_token_facts g t (Or.inr (by rw [← hpg]; exact h))).2)
  unfold specSegments
  by_cases h1 : 0 < (mergedPre po pg).length
  · have h2 : po.hasCommand = true ∨ pg.hasCommand = true ∨ 0 < (mergedPre po pg).length :=
      Or.inr (Or.inr h1)
    by_cases h3 : 0 < (mergedPost po pg).length
    · simp [h1, h2, h3, joinSpace_cons2, joinSpace_single,
        countCmdOcc_append_space, hpre0, hpost0, countCmdOcc_cmdToken]
    · simp [h1, h2, h3, joinSpace_cons2, joinSpace_single,
        countCmdOcc_append_space, hpre0, countCmdOcc_cmdToken]
  · by_cases hor : po.hasCommand = true ∨ pg.hasCommand = true
    · by_cases h3 : 0 < (mergedPost po pg).length
      · simp [h1, hor, h3, joinSpace_cons2, joinSpace_single,
          countCmdOcc_append_space, hpost0, countCmdOcc_cmdToken]
      · simp [h1, hor, h3, joinSpace_single, countCmdOcc_cmdToken]
    · by_cases h3 : 0 < (mergedPost po pg).length
      · simp [h1, hor, h3, joinSpace_single, hpost0]
      · simp [h1, hor, h3, joinSpace_nil, countCmdOcc]

/-- C4: after a `CreatingProcess` event with a pending app id set, the pending
id is cleared to `none` on the success path and on every failure path (fetch
rejection by error or timeout, setter throw, empty global options). -/
theorem continueGameAction_clears_pending :
    ∀ (cfg : PluginConfig) (appId gameActionId : Nat) (fetch : FetchOutcome)
      (setterThrows : Bool),
      (continueGameAction cfg (some appId) gameActionId creatingProcessTag fetch
        setterThrows).state = none := by
  intro cfg appId gid fetch thr
  cases fetch <;> by_cases hg : cfg.globalLaunchOptions = [] <;>
    simp [continueGameAction, hg]

/-- C6: a process-creation event with a non-`CreatingProcess` tag, or with no
pending app id, invokes the wrapped original handler with the same arguments,
makes no fetch, setter or timer-arming call, and leaves the pending app id
unchanged. -/
theorem continueGameAction_passthrough :
    ∀ (cfg : PluginConfig) (st : Option Nat) (gameActionId : Nat) (action : List Char)
      (fetch : FetchOutcome) (setterThrows : Bool),
      action ≠ creatingProcessTag ∨ st = none →
      continueGameAction cfg st gameActionId action fetch setterThrows =
        ⟨st, [Effect.callOriginal gameActionId action]⟩ := by
  intro cfg st gid action fetch thr h
  rcases h with h | rfl
  · cases st with
    | none => simp [continueGameAction]
    | some a => simp [continueGameAction, h]
  · simp [continueGameAction]

/-- Witness for C6: a wrong-tag event (`LaunchingProcess`) while app 440 is
pending passes through and the pending id remains set. -/
theorem continueGameAction_passthrough_witness :
    continueGameAction ⟨"MANGOHUD=1 %command%".data, []⟩ (some 440) 9
        "LaunchingProcess".data (FetchOutcome.resolved []) false =
      ⟨some 440, [Effect.callOriginal 9 "LaunchingProcess".data]⟩ :=
  continueGameAction_passthrough _ _ _ _ _ _ (Or.inl (by decide))

/-- C1 counterexample: the claim says a `CreatingProcess` event with pending
app id 440 always fetches 440's original options, but with an empty
`globalLaunchOptions` the handler takes the `else` branch ("No global options
configured.") and performs no fetch, no setter call and no timer arming. -/
theorem creatingProcess_skips_on_empty_global :
    (continueGameAction ⟨[], []⟩ (some 440) 7 creatingProcessTag
        (FetchOutcome.resolved "-novid".data) false).effects =
      [Effect.callOriginal 7 creatingProcessTag] ∧
    Effect.fetchOriginal 440 ∉ (continueGameAction ⟨[], []⟩ (some 440) 7 creatingProcessTag
        (FetchOutcome.resolved "-novid".data) false).effects := by
  constructor <;> decide

/-- C1 (amended): whenever a `CreatingProcess` event arrives while pending app
id X is set, the current configuration's global launch options string is
non-empty, and the original-options fetch resolves with string O, the handler
reads X's original options from the platform, applies
`mergeLaunchOptions O global` via the options setter, and — when the setter
does not throw — arms the restoration scheduler for X with the original
string O. -/
theorem creatingProcess_applies_merged :
    ∀ (cfg : PluginConfig) (appId gameActionId : Nat) (orig : List Char)
      (setterThrows : Bool),
      cfg.globalLaunchOptions ≠ [] →
      Effect.fetchOriginal appId ∈
        (continueGameAction cfg (some appId) gameActionId creatingProcessTag
          (FetchOutcome.resolved orig) setterThrows).effects ∧
      Effect.setOptions appId (mergeLaunchOptions orig cfg.globalLaunchOptions) ∈
        (continueGameAction cfg (some appId) gameActionId creatingProcessTag
          (FetchOutcome.resolved orig) setterThrows).effects ∧
      (setterThrows = false →
        Effect.armRestore appId orig RESTORE_DELAY_MS ∈
          (continueGameAction cfg (some appId) gameActionId creatingProcessTag
            (FetchOutcome.resolved orig) setterThrows).effects) := by
  intro cfg appId gid orig thr hg
  refine ⟨?_, ?_, ?_⟩
  · simp [continueGameAction, hg]
  · simp [continueGameAction, hg]
  · intro hthr
    subst hthr
    simp [continueGameAction, hg]

/-- Witness for the amended C1 at a concrete launch of app 440 with global
options "MANGOHUD=1 %command%" and original options "-novid". -/
theorem creatingProcess_applies_merged_witness :
    Effect.fetchOriginal 440 ∈
      (continueGameAction ⟨"MANGOHUD=1 %command%".data, []⟩ (some 440) 7 creatingProcessTag
        (FetchOutcome.resolved "-novid".data) false).effects ∧
    Effect.setOptions 440 (mergeLaunchOptions "-novid".data "MANGOHUD=1 %command%".data) ∈
      (continueGameAction ⟨"MANGOHUD=1 %command%".data, []⟩ (some 440) 7 creatingProcessTag
        (FetchOutcome.resolved "-novid".data) false).effects ∧
    Effect.armRestore 440 "-novid".data RESTORE_DELAY_MS ∈
      (continueGameAction ⟨"MANGOHUD=1 %command%".data, []⟩ (some 440) 7 creatingProcessTag
        (FetchOutcome.resolved "-novid".data) false).effects :=
  ⟨(creatingProcess_applies_merged ⟨"MANGOHUD=1 %command%".data, []⟩ 440 7 "-novid".data false
      (by decide)).1,
   (creatingProcess_applies_merged ⟨"MANGOHUD=1 %command%".data, []⟩ 440 7 "-novid".data false
      (by decide)).2.1,
   (creatingProcess_applies_merged ⟨"MANGOHUD=1 %command%".data, []⟩ 440 7 "-novid".data false
      (by decide)).2.2 rfl⟩

/-- C5: a launch-detection (`LaunchApp`) event for an app id whose decimal
string appears in the trimmed comma-separated exclusion list does not set the
pending app id (it is cleared), and a subsequent `CreatingProcess` event then
performs no fetch, no setter call and arms no timer — its only effect is
delegating to the wrapped original handler; a non-excluded launch-detection
event sets the pending app id to that app. -/
theorem exclusion_behaviour :
    ∀ (cfg : PluginConfig) (st : Option Nat) (appId gameActionId : Nat)
      (fetch : FetchOutcome) (setterThrows : Bool),
      ((excludedAppIds cfg).contains (natChars appId) = true →
        onGameActionUserRequest cfg st appId launchAppTag = none ∧
        (continueGameAction cfg (onGameActionUserRequest cfg st appId launchAppTag)
          gameActionId creatingProcessTag fetch setterThrows).effects =
          [Effect.callOriginal gameActionId creatingProcessTag]) ∧
      ((excludedAppIds cfg).contains (natChars appId) = false →
        onGameActionUserRequest cfg st appId launchAppTag = some appId) := by
  intro cfg st appId gid fetch thr
  constructor
  · intro hex
    have hex' : natChars appId ∈ excludedAppIds cfg := by simpa using hex
    have h1 : onGameActionUserRequest cfg st appId launchAppTag = none := by
      simp [onGameActionUserRequest, hex']
    refine ⟨h1, ?_⟩
    rw [h1]
    simp [continueGameAction]
  · intro hex
    have hex' : natChars appId ∉ excludedAppIds cfg := by simpa using hex
    simp [onGameActionUserRequest, hex']

/-- Witness for C5: with exclusion list "730, 440", launching app 730 clears
the pending id and the following `CreatingProcess` event only delegates, while
launching app 570 sets the pending id. -/
theorem exclusion_behaviour_witness :
    (onGameActionUserRequest ⟨"MANGOHUD=1 %command%".data, "730, 440".data⟩ (some 1) 730
        launchAppTag = none ∧
      (continueGameAction ⟨"MANGOHUD=1 %command%".data, "730, 440".data⟩
        (onGameActionUserRequest ⟨"MANGOHUD=1 %command%".data, "730, 440".data⟩ (some 1) 730
          launchAppTag) 3 creatingProcessTag (FetchOutcome.resolved []) false).effects =
        [Effect.callOriginal 3 creatingProcessTag]) ∧
    onGameActionUserRequest ⟨"MANGOHUD=1 %command%".data, "730, 440".data⟩ none 570
      launchAppTag = some 570 :=
  ⟨(exclusion_behaviour ⟨"MANGOHUD=1 %command%".data, "730, 440".data⟩ (some 1) 730 3
      (FetchOutcome.resolved []) false).1 (by decide),
   (exclusion_behaviour ⟨"MANGOHUD=1 %command%".data, "730, 440".data⟩ none 570 3
      (FetchOutcome.resolved []) false).2 (by decide)⟩

/-- C7: the original-options promise resolves with the platform-delivered
`strLaunchOptions` string exactly when the callback fires within the fixed
5-second bound, and otherwise rejects with the timeout error; the settled
outcome is the unique first settle operation (resolution and timeout are
mutually exclusive), and on both paths the callback registration is
unregistered strictly before the promise settles. -/
theorem getCurrentLaunchOptions_spec :
    ∀ (t : Nat) (d : AppDetails),
      promiseOutcome (getCurrentLaunchOptionsTrace (some (t, d))) =
        (if t < TIMEOUT_MS then some (FetchOp.resolveOptions (d.strLaunchOptions.getD []))
         else some FetchOp.rejectTimeout) ∧
      promiseOutcome (getCurrentLaunchOptionsTrace none) = some FetchOp.rejectTimeout ∧
      FetchOp.unregisterCb ∈
        (getCurrentLaunchOptionsTrace (some (t, d))).takeWhile (fun op => !isSettle op) ∧
      FetchOp.unregisterCb ∈
        (getCurrentLaunchOptionsTrace none).takeWhile (fun op => !isSettle op) := by
  intro t d
  refine ⟨?_, ?_, ?_, ?_⟩ <;>
    by_cases h : t < TIMEOUT_MS <;>
      simp [getCurrentLaunchOptionsTrace, promiseOutcome, isSettle, h,
        List.find?, List.takeWhile]

/-- C8: `fetchCurrentConfig` returns the cached configuration without calling
the backend whenever the cache is populated and the previous fetch is fresher
than the one-second TTL; when the backend call (or its JSON parse) fails and
the cache is absent or stale, it returns the safe default configuration and
stores that default in the cache with the current timestamp. -/
theorem fetchCurrentConfig_spec :
    ∀ (st : ConfigCacheState) (now : Nat) (backend : BackendResult) (c : PluginConfig),
      (st.configCache = some c → now - st.lastConfigFetch < CONFIG_CACHE_TTL →
        fetchCurrentConfig st now backend = ⟨c, st, false⟩) ∧
      ((st.configCache = none ∨ CONFIG_CACHE_TTL ≤ now - st.lastConfigFetch) →
        backend = BackendResult.failure →
        fetchCurrentConfig st now backend =
          ⟨defaultConfig, ⟨some defaultConfig, now⟩, true⟩) := by
  intro st now backend c
  constructor
  · intro hc hlt
    simp [fetchCurrentConfig, hc, hlt]
  · rintro (hnone | hstale) rfl
    · simp [fetchCurrentConfig, hnone, fetchFreshConfig]
    · cases hcc : st.configCache with
      | none => simp [fetchCurrentConfig, hcc, fetchFreshConfig]
      | some c' => simp [fetchCurrentConfig, hcc, Nat.not_lt.mpr hstale, fetchFreshConfig]

/-- Witness for C8: a fresh cache hit (fetched at 5000, queried at 5500)
returns the cached value without a backend call, and a failure with an empty
cache returns and caches the default. -/
theorem fetchCurrentConfig_spec_witness :
    fetchCurrentConfig ⟨some ⟨"-novid".data, []⟩, 5000⟩ 5500 BackendResult.failure =
      ⟨⟨"-novid".data, []⟩, ⟨some ⟨"-novid".data, []⟩, 5000⟩, false⟩ ∧
    fetchCurrentConfig ⟨none, 0⟩ 0 BackendResult.failure =
      ⟨defaultConfig, ⟨some defaultConfig, 0⟩, true⟩ :=
  ⟨(fetchCurrentConfig_spec ⟨some ⟨"-novid".data, []⟩, 5000⟩ 5500 BackendResult.failure
      ⟨"-novid".data, []⟩).1 rfl (by decide),
   (fetchCurrentConfig_spec ⟨none, 0⟩ 0 BackendResult.failure defaultConfig).2
      (Or.inl rfl) rfl⟩

/-- C9: firing the armed restoration timer calls the platform setter exactly
once with the armed app id and the exact original options string, and even
when the setter throws the exception is caught — it never escapes the timer
action. -/
theorem restorationTimerFire_spec :
    ∀ (appId : Nat) (opts : List Char) (setterThrows : Bool),
      (restorationTimerFire appId opts setterThrows).1 = [⟨appId, opts⟩] ∧
      (restorationTimerFire appId opts setterThrows).2 ≠ TimerOutcome.raised := by
  intro appId opts thr
  cases thr <;> simp [restorationTimerFire]
